import Mathlib

/-!
# Verification of `inventory_system.py`

Shallow embedding of the inventory management module: a global dict
`stock_data` mapping item names to quantities, with operations
`add_item`, `remove_item`, `get_qty`, `load_data`, `save_data`,
`print_data`, `check_low_items`.  The global dict is passed explicitly
as a `Table`; Python dicts preserve insertion order, so a table is an
association list with (for reachable states) pairwise distinct keys.
-/

namespace Inventory

/-- Python runtime values, as they can occur as dict values, function
arguments, and JSON-decoded data: `None`, `bool`, `int`, `str`, `list`,
`dict`.  (Floats are not produced by any code path exercised by the
claims and are omitted from the universe.) -/
inductive PyVal where
  | null : PyVal
  | bool : Bool → PyVal
  | int : Int → PyVal
  | str : String → PyVal
  | arr : List PyVal → PyVal
  | obj : List (String × PyVal) → PyVal

/-- The in-memory stock table: the Python dict `stock_data`.  Keys are
strings (JSON object keys are strings and `add_item` validates
`isinstance(item, str)`); insertion order is preserved. -/
abbrev Table := List (String × PyVal)

/-- `d.get(key, default)` / `d[key]` lookup: first (and for genuine
dicts only) binding of `key`. -/
def dictGet : Table → String → Option PyVal
  | [], _ => none
  | (k, v) :: rest, key => if k = key then some v else dictGet rest key

/-- `d[key] = val`: replace the value of an existing binding in place
(Python dicts keep the original insertion position on update), or
append a new binding at the end. -/
def dictSet : Table → String → PyVal → Table
  | [], key, val => [(key, val)]
  | (k, v) :: rest, key, val =>
      if k = key then (k, val) :: rest else (k, v) :: dictSet rest key val

/-- `del d[key]`: drop the binding of `key`. -/
def dictDel : Table → String → Table
  | [], _ => []
  | (k, v) :: rest, key =>
      if k = key then rest else (k, v) :: dictDel rest key

/-- `isinstance(x, int)` together with the numeric value used by `+`,
`-` and `<=`: Python `bool` is a subclass of `int` (`True` counts as 1,
`False` as 0); every other value is not an `int` and is returned as
`none` (arithmetic with it raises `TypeError`). -/
def pyNum : PyVal → Option Int
  | .bool b => some (if b then 1 else 0)
  | .int n => some n
  | _ => none

/-- The item-name validation shared by `add_item` and `remove_item`:
`isinstance(item, str) and item` (a non-empty string). -/
def validItemB : PyVal → Bool
  | .str s => decide (s ≠ "")
  | _ => false

/-- Result of running a mutating operation: either it returns normally
with the new table, or an uncaught Python exception (a `TypeError` from
arithmetic on a non-numeric stored value) propagates, leaving the table
in the given state. -/
inductive PyResult where
  | ok : Table → PyResult
  | typeError : Table → PyResult

/-- The table state after the operation, whether it returned normally
or raised. -/
def PyResult.resTable : PyResult → Table
  | .ok t => t
  | .typeError t => t

/-- `add_item(item, qty)`: validates that `item` is a non-empty `str`,
that `qty` is an `int`, and that `qty >= 0` (returning with the table
unchanged otherwise), then executes
`stock_data[item] = stock_data.get(item, 0) + qty`.  The `+` raises an
uncaught `TypeError` when the stored value is not numeric. -/
def add_item (t : Table) (item qty : PyVal) : PyResult :=
  match item with
  | .str s =>
      if s = "" then .ok t
      else
        match pyNum qty with
        | none => .ok t
        | some q =>
            if q < 0 then .ok t
            else
              match pyNum ((dictGet t s).getD (.int 0)) with
              | none => .typeError t
              | some prev => .ok (dictSet t s (.int (prev + q)))
  | _ => .ok t

/-- `remove_item(item, qty)`: same validation as `add_item`; then
`stock_data[item] -= qty` inside `try`, where a `KeyError` (absent
item) is caught and logged as a warning, but a `TypeError` (non-numeric
stored value) is not caught; if the updated value is `<= 0` the entry
is deleted. -/
def remove_item (t : Table) (item qty : PyVal) : PyResult :=
  match item with
  | .str s =>
      if s = "" then .ok t
      else
        match pyNum qty with
        | none => .ok t
        | some q =>
            if q < 0 then .ok t
            else
              match dictGet t s with
              | none => .ok t
              | some v =>
                  match pyNum v with
                  | none => .typeError t
                  | some prev =>
                      let t' := dictSet t s (.int (prev - q))
                      if prev - q ≤ 0 then .ok (dictDel t' s) else .ok t'
  | _ => .ok t

/-- `get_qty(item)`: returns `stock_data.get(item, 0)` when `item` is a
`str` (emptiness is not checked here), and `0` after logging an error
otherwise. -/
def get_qty (t : Table) (item : PyVal) : PyVal :=
  match item with
  | .str s => (dictGet t s).getD (.int 0)
  | _ => .int 0

/-- Outcome of `open(file).read()` followed by `json.loads`: the file
may be missing (`FileNotFoundError`), reading may raise
`IOError`/`OSError`, the content may fail to decode
(`json.JSONDecodeError`), or decoding succeeds with a JSON value. -/
inductive FileState where
  | missing : FileState
  | readFail : FileState
  | decodeFail : FileState
  | json : PyVal → FileState

/-- `load_data(file)`: returns the decoded data on success; each of the
three handled exceptions falls through to `return {}` (the empty
dict). -/
def load_data : FileState → PyVal
  | .json v => v
  | .missing => .obj []
  | .readFail => .obj []
  | .decodeFail => .obj []

/-- `save_data(file)` on a successful write: the file afterwards holds
`json.dumps(stock_data)`.  Serialization is modelled at the value
level: `json.dumps` followed by `json.loads` (library code, not part of
this repository) is the identity on a dict with string keys and values
in this universe. -/
def save_data (t : Table) : FileState := .json (.obj t)

/-- `check_low_items(threshold)`: iterates over the table and collects
the names of items whose quantity is `<= threshold`.  The comparison of
a non-numeric stored value with an `int` raises an uncaught
`TypeError`, modelled as `none`. -/
def check_low_items (t : Table) (threshold : Int) : Option (List String) :=
  match t with
  | [] => some []
  | (item, quantity) :: rest =>
      match pyNum quantity with
      | none => none
      | some n =>
          match check_low_items rest threshold with
          | none => none
          | some res => some (if n ≤ threshold then item :: res else res)

/-- One printed line of the report, with the rendered text abstracted
to its content. -/
inductive ReportLine where
  | header : ReportLine
  | emptyNotice : ReportLine
  | entry : String → PyVal → ReportLine
  | footer : ReportLine

/-- `print_data()`: the report printed to stdout — a header, then
either the empty-stock notice or one line per item in table order, then
a footer.  Reads the table only. -/
def print_data (t : Table) : List ReportLine :=
  ReportLine.header ::
    (if t.isEmpty then [ReportLine.emptyNotice]
     else t.map fun p => ReportLine.entry p.1 p.2) ++ [ReportLine.footer]

/-- The spec's Stock Table invariant: every stored value is a positive
integer. -/
def invariantB (t : Table) : Bool :=
  t.all fun p =>
    match p.2 with
    | .int n => decide (0 < n)
    | _ => false

/-- The predicate `quantity <= threshold` as a Boolean on bindings with
a numeric value (used to characterize `check_low_items`). -/
def lowB (threshold : Int) (p : String × PyVal) : Bool :=
  match pyNum p.2 with
  | some n => decide (n ≤ threshold)
  | none => false

theorem dictGet_dictSet_self (t : Table) (k : String) (v : PyVal) :
    dictGet (dictSet t k v) k = some v := by
  induction t with
  | nil => simp [dictGet, dictSet]
  | cons p rest ih =>
      obtain ⟨k0, v0⟩ := p
      by_cases h : k0 = k
      · simp [dictGet, dictSet, h]
      · simp [dictGet, dictSet, h, ih]

theorem dictGet_dictSet_ne (t : Table) (k k' : String) (v : PyVal)
    (h : k' ≠ k) : dictGet (dictSet t k v) k' = dictGet t k' := by
  have hne : ¬k = k' := fun hh => h hh.symm
  induction t with
  | nil => simp [dictGet, dictSet, hne]
  | cons p rest ih =>
      obtain ⟨k0, v0⟩ := p
      by_cases hk : k0 = k
      · subst hk
        simp [dictGet, dictSet, hne]
      · simp only [dictSet, if_neg hk]
        by_cases hk' : k0 = k'
        · simp [dictGet, hk']
        · simp [dictGet, hk', ih]

theorem dictGet_dictDel_ne (t : Table) (k k' : String)
    (h : k' ≠ k) : dictGet (dictDel t k) k' = dictGet t k' := by
  have hne : ¬k = k' := fun hh => h hh.symm
  induction t with
  | nil => rfl
  | cons p rest ih =>
      obtain ⟨k0, v0⟩ := p
      by_cases hk : k0 = k
      · subst hk
        simp [dictDel, dictGet, hne]
      · simp only [dictDel, if_neg hk]
        by_cases hk' : k0 = k'
        · simp [dictGet, hk']
        · simp [dictGet, hk', ih]

theorem dictDel_dictSet (t : Table) (k : String) (v : PyVal) :
    dictDel (dictSet t k v) k = dictDel t k := by
  induction t with
  | nil => simp [dictDel, dictSet]
  | cons p rest ih =>
      obtain ⟨k0, v0⟩ := p
      by_cases hk : k0 = k
      · simp [dictDel, dictSet, hk]
      · simp [dictDel, dictSet, hk, ih]

theorem dictGet_eq_none_of_not_mem (t : Table) (k : String)
    (h : k ∉ t.map Prod.fst) : dictGet t k = none := by
  induction t with
  | nil => rfl
  | cons p rest ih =>
      obtain ⟨k0, v0⟩ := p
      simp only [List.map_cons, List.mem_cons] at h
      push_neg at h
      have hne : ¬k0 = k := fun hh => h.1 hh.symm
      simp [dictGet, hne, ih h.2]

theorem dictGet_dictDel_self (t : Table) (k : String)
    (hnd : (t.map Prod.fst).Nodup) : dictGet (dictDel t k) k = none := by
  induction t with
  | nil => rfl
  | cons p rest ih =>
      obtain ⟨k0, v0⟩ := p
      simp only [List.map_cons, List.nodup_cons] at hnd
      by_cases hk : k0 = k
      · subst hk
        simpa [dictDel] using dictGet_eq_none_of_not_mem rest k0 hnd.1
      · simp [dictDel, dictGet, hk, ih hnd.2]

theorem invariantB_dictSet (t : Table) (k : String) (n : Int)
    (hinv : invariantB t = true) (hn : 0 < n) :
    invariantB (dictSet t k (.int n)) = true := by
  induction t with
  | nil => simpa [invariantB, dictSet] using hn
  | cons p rest ih =>
      obtain ⟨k0, v0⟩ := p
      simp only [invariantB, List.all_cons, Bool.and_eq_true] at hinv
      by_cases hk : k0 = k
      · simp only [dictSet, if_pos hk]
        simp only [invariantB, List.all_cons, Bool.and_eq_true]
        exact ⟨by simpa using hn, hinv.2⟩
      · simp only [dictSet, if_neg hk]
        simp only [invariantB, List.all_cons, Bool.and_eq_true]
        exact ⟨hinv.1, ih hinv.2⟩

theorem invariantB_dictDel (t : Table) (k : String)
    (hinv : invariantB t = true) : invariantB (dictDel t k) = true := by
  induction t with
  | nil => rfl
  | cons p rest ih =>
      obtain ⟨k0, v0⟩ := p
      simp only [invariantB, List.all_cons, Bool.and_eq_true] at hinv
      by_cases hk : k0 = k
      · simpa [dictDel, hk, invariantB] using hinv.2
      · simp only [dictDel, if_neg hk]
        simp only [invariantB, List.all_cons, Bool.and_eq_true]
        exact ⟨hinv.1, ih hinv.2⟩

theorem invariantB_dictGet (t : Table) (k : String) (v : PyVal)
    (hinv : invariantB t = true) (hget : dictGet t k = some v) :
    ∃ n : Int, v = .int n ∧ 0 < n := by
  induction t with
  | nil => simp [dictGet] at hget
  | cons p rest ih =>
      obtain ⟨k0, v0⟩ := p
      simp only [invariantB, List.all_cons, Bool.and_eq_true] at hinv
      by_cases hk : k0 = k
      · simp only [dictGet, if_pos hk, Option.some.injEq] at hget
        subst hget
        have h1 := hinv.1
        cases v0 with
        | int n => exact ⟨n, rfl, by simpa using h1⟩
        | null => simp at h1
        | bool b => simp at h1
        | str s => simp at h1
        | arr l => simp at h1
        | obj l => simp at h1
      · simp only [dictGet, if_neg hk] at hget
        exact ih hinv.2 hget

theorem add_item_preserves (t : Table) (item qty : PyVal)
    (hinv : invariantB t = true)
    (hq : ∀ s q, item = .str s → pyNum qty = some q →
        0 < q ∨ (dictGet t s).isSome = true) :
    invariantB (add_item t item qty).resTable = true := by
  cases item with
  | str s =>
      by_cases hs : s = ""
      · simpa [add_item, hs, PyResult.resTable] using hinv
      · rcases hpq : pyNum qty with _ | q
        · simpa [add_item, hs, hpq, PyResult.resTable] using hinv
        · by_cases hqneg : q < 0
          · simpa [add_item, hs, hpq, hqneg, PyResult.resTable] using hinv
          · rcases hg : dictGet t s with _ | v
            · have hpos : 0 < q := by
                rcases hq s q rfl hpq with h | h
                · exact h
                · rw [hg] at h; simp at h
              simp only [add_item, if_neg hs, hpq, if_neg hqneg, hg,
                Option.getD_none]
              simp only [pyNum, PyResult.resTable]
              exact invariantB_dictSet t s (0 + q) hinv (by simpa using hpos)
            · obtain ⟨p, rfl, hp⟩ := invariantB_dictGet t s v hinv hg
              have hq0 : 0 ≤ q := not_lt.mp hqneg
              simp only [add_item, if_neg hs, hpq, if_neg hqneg, hg,
                Option.getD_some]
              simp only [pyNum, PyResult.resTable]
              exact invariantB_dictSet t s (p + q) hinv (by omega)
  | null => simpa [add_item, PyResult.resTable] using hinv
  | bool b => simpa [add_item, PyResult.resTable] using hinv
  | int n => simpa [add_item, PyResult.resTable] using hinv
  | arr l => simpa [add_item, PyResult.resTable] using hinv
  | obj l => simpa [add_item, PyResult.resTable] using hinv

theorem remove_item_preserves (t : Table) (item qty : PyVal)
    (hinv : invariantB t = true) :
    invariantB (remove_item t item qty).resTable = true := by
  cases item with
  | str s =>
      by_cases hs : s = ""
      · simpa [remove_item, hs, PyResult.resTable] using hinv
      · rcases hpq : pyNum qty with _ | q
        · simpa [remove_item, hs, hpq, PyResult.resTable] using hinv
        · by_cases hqneg : q < 0
          · simpa [remove_item, hs, hpq, hqneg, PyResult.resTable] using hinv
          · rcases hg : dictGet t s with _ | v
            · simpa [remove_item, hs, hpq, hqneg, hg, PyResult.resTable]
                using hinv
            · obtain ⟨p, rfl, hp⟩ := invariantB_dictGet t s v hinv hg
              by_cases hle : p - q ≤ 0
              · simp only [remove_item, if_neg hs, hpq, if_neg hqneg, hg]
                simp only [pyNum, if_pos hle, PyResult.resTable,
                  dictDel_dictSet]
                exact invariantB_dictDel t s hinv
              · simp only [remove_item, if_neg hs, hpq, if_neg hqneg, hg]
                simp only [pyNum, if_neg hle, PyResult.resTable]
                exact invariantB_dictSet t s (p - q) hinv (by omega)
  | null => simpa [remove_item, PyResult.resTable] using hinv
  | bool b => simpa [remove_item, PyResult.resTable] using hinv
  | int n => simpa [remove_item, PyResult.resTable] using hinv
  | arr l => simpa [remove_item, PyResult.resTable] using hinv
  | obj l => simpa [remove_item, PyResult.resTable] using hinv

/-- C1 (counterexample): the claimed invariant is not preserved by
`add`.  Starting from the empty table, which satisfies the
positive-integer invariant, `add_item("x", 0)` passes validation (only
`qty < 0` is rejected) and executes `stock_data["x"] = 0 + 0`, leaving
the entry `("x", 0)` whose quantity is not positive. -/
theorem C1_invariant_cex :
    invariantB [] = true
    ∧ add_item [] (.str "x") (.int 0) = .ok [("x", .int 0)]
    ∧ invariantB [("x", .int 0)] = false :=
  ⟨rfl, rfl, rfl⟩

/-- C1 (amended): on a table satisfying the positive-integer invariant,
`remove_item` always preserves the invariant, and `add_item` preserves
it provided every validated quantity it actually adds is positive or
the item is already present (the exception being exactly
`add(item, 0)` on an absent item, which creates a zero-quantity entry);
`get_qty`, `check_low_items` and `print_data` read the table without
modifying it, and a successful `load_data` returns the parsed data
without validation, so its result need not satisfy the invariant. -/
theorem C1_invariant_amended (t : Table) (item qty : PyVal)
    (hinv : invariantB t = true)
    (hq : ∀ s q, item = .str s → pyNum qty = some q →
        0 < q ∨ (dictGet t s).isSome = true) :
    invariantB (add_item t item qty).resTable = true
    ∧ invariantB (remove_item t item qty).resTable = true :=
  ⟨add_item_preserves t item qty hinv hq,
   remove_item_preserves t item qty hinv⟩

/-- C1 witness: the amended statement applied to the table
`[("a", 2)]` with `add`/`remove` of 3 of item `"b"`. -/
theorem C1_invariant_amended_witness :
    invariantB [("a", PyVal.int 2)] = true
    ∧ invariantB
        (add_item [("a", PyVal.int 2)] (.str "b") (.int 3)).resTable = true
    ∧ invariantB
        (remove_item [("a", PyVal.int 2)] (.str "b") (.int 3)).resTable
        = true := by
  have h := C1_invariant_amended [("a", PyVal.int 2)] (.str "b") (.int 3)
    rfl (by
      intro s q hs hpq
      cases hs
      have hq3 : (3 : Int) = q := by simpa [pyNum] using hpq
      exact Or.inl (by omega))
  exact ⟨rfl, h.1, h.2⟩

/-- C2: for a non-empty item name and an integer `qty >= 0`,
`add_item` sets the entry to the previous value (`0` when absent) plus
`qty`, and `get_qty` on the updated table returns that sum. -/
theorem C2_add_then_get (t : Table) (s : String) (q p : Int)
    (hs : s ≠ "") (hq : 0 ≤ q)
    (hp : (dictGet t s).getD (.int 0) = .int p) :
    add_item t (.str s) (.int q) = .ok (dictSet t s (.int (p + q)))
    ∧ get_qty (dictSet t s (.int (p + q))) (.str s) = .int (p + q) := by
  have hql : ¬q < 0 := not_lt.mpr hq
  constructor
  · simp [add_item, hs, hql, hp, pyNum]
  · simp [get_qty, dictGet_dictSet_self]

/-- C2 witness: adding 3 of `"a"` to the table `[("a", 2)]` yields
`[("a", 5)]`, on which `get_qty("a")` returns 5. -/
theorem C2_add_then_get_witness :
    "a" ≠ "" ∧ (0 : Int) ≤ 3
    ∧ add_item [("a", PyVal.int 2)] (.str "a") (.int 3)
        = .ok [("a", PyVal.int 5)]
    ∧ get_qty [("a", PyVal.int 5)] (.str "a") = PyVal.int 5 := by
  have h := C2_add_then_get [("a", PyVal.int 2)] "a" 3 2
    (by decide) (by decide) rfl
  refine ⟨by decide, by decide, ?_, ?_⟩
  · rw [h.1]; rfl
  · have h2 := h.2
    rwa [show dictSet [("a", PyVal.int 2)] "a" (.int (2 + 3))
        = [("a", PyVal.int 5)] from rfl] at h2

/-- C3: removing an integer `qty >= 0` of an item that is present with
quantity `v` decrements it to `v - qty`; when `v - qty <= 0` the entry
is deleted and `get_qty` thereafter returns 0, otherwise the entry
keeps the positive value `v - qty`, which `get_qty` returns. -/
theorem C3_remove_present (t : Table) (s : String) (q v : Int)
    (hnd : (t.map Prod.fst).Nodup) (hs : s ≠ "") (hq : 0 ≤ q)
    (hv : dictGet t s = some (.int v)) :
    remove_item t (.str s) (.int q)
      = .ok (if v - q ≤ 0 then dictDel t s else dictSet t s (.int (v - q)))
    ∧ (v - q ≤ 0 → get_qty (dictDel t s) (.str s) = .int 0)
    ∧ (0 < v - q →
        get_qty (dictSet t s (.int (v - q))) (.str s) = .int (v - q)) := by
  have hql : ¬q < 0 := not_lt.mpr hq
  refine ⟨?_, ?_, ?_⟩
  · by_cases hle : v - q ≤ 0
    · simp only [remove_item, if_neg hs, hv]
      simp [pyNum, hle, dictDel_dictSet, hql]
    · simp only [remove_item, if_neg hs, hv]
      simp [pyNum, hle, hql]
  · intro hle
    simp [get_qty, dictGet_dictDel_self t s hnd]
  · intro hpos
    simp [get_qty, dictGet_dictSet_self]

/-- C3 witness: removing 5 of `"a"` from `[("a", 5), ("b", 2)]`
deletes the entry, and `get_qty("a")` then returns 0. -/
theorem C3_remove_present_witness :
    remove_item [("a", PyVal.int 5), ("b", PyVal.int 2)] (.str "a")
        (.int 5)
      = .ok [("b", PyVal.int 2)]
    ∧ get_qty [("b", PyVal.int 2)] (.str "a") = PyVal.int 0 := by
  have h := C3_remove_present [("a", PyVal.int 5), ("b", PyVal.int 2)]
    "a" 5 5 (by decide) (by decide) (by decide) rfl
  constructor
  · rw [h.1]; rfl
  · have h2 := h.2.1 (by decide)
    rwa [show dictDel [("a", PyVal.int 5), ("b", PyVal.int 2)] "a"
        = [("b", PyVal.int 2)] from rfl] at h2

/-- C4: removing an item that is absent, with a non-empty name and an
integer `qty >= 0`, leaves the table unchanged and raises nothing to
the caller (the `KeyError` is caught and logged as a warning). -/
theorem C4_remove_absent (t : Table) (s : String) (q : Int)
    (hs : s ≠ "") (hq : 0 ≤ q) (habs : dictGet t s = none) :
    remove_item t (.str s) (.int q) = .ok t := by
  have hql : ¬q < 0 := not_lt.mpr hq
  simp only [remove_item, if_neg hs, habs]
  simp [pyNum, hql]

/-- C4 witness: removing 1 of the absent item `"b"` from `[("a", 5)]`
returns the table unchanged. -/
theorem C4_remove_absent_witness :
    remove_item [("a", PyVal.int 5)] (.str "b") (.int 1)
      = .ok [("a", PyVal.int 5)] :=
  C4_remove_absent [("a", PyVal.int 5)] "b" 1 (by decide) (by decide) rfl

/-- C5: on an invalid item (empty or not a string), a quantity that is
not an `int`, or a negative quantity, both `add_item` and `remove_item`
return with the table unchanged and no exception propagates; the two
operations share this validation. -/
theorem C5_invalid_noop (t : Table) (item qty : PyVal)
    (h : validItemB item = false ∨ pyNum qty = none
        ∨ ∃ n : Int, qty = .int n ∧ n < 0) :
    add_item t item qty = .ok t ∧ remove_item t item qty = .ok t := by
  rcases h with h | h | ⟨n, rfl, hn⟩
  · cases item with
    | str s =>
        have hs : s = "" := by simpa [validItemB] using h
        subst hs
        exact ⟨by simp [add_item], by simp [remove_item]⟩
    | null => exact ⟨rfl, rfl⟩
    | bool b => exact ⟨rfl, rfl⟩
    | int n => exact ⟨rfl, rfl⟩
    | arr l => exact ⟨rfl, rfl⟩
    | obj l => exact ⟨rfl, rfl⟩
  · cases item with
    | str s =>
        by_cases hs : s = ""
        · subst hs
          exact ⟨by simp [add_item], by simp [remove_item]⟩
        · exact ⟨by simp only [add_item, if_neg hs, h],
            by simp only [remove_item, if_neg hs, h]⟩
    | null => exact ⟨rfl, rfl⟩
    | bool b => exact ⟨rfl, rfl⟩
    | int n => exact ⟨rfl, rfl⟩
    | arr l => exact ⟨rfl, rfl⟩
    | obj l => exact ⟨rfl, rfl⟩
  · cases item with
    | str s =>
        by_cases hs : s = ""
        · subst hs
          exact ⟨by simp [add_item], by simp [remove_item]⟩
        · constructor
          · simp only [add_item, if_neg hs]
            simp [pyNum, hn]
          · simp only [remove_item, if_neg hs]
            simp [pyNum, hn]
    | null => exact ⟨rfl, rfl⟩
    | bool b => exact ⟨rfl, rfl⟩
    | int n => exact ⟨rfl, rfl⟩
    | arr l => exact ⟨rfl, rfl⟩
    | obj l => exact ⟨rfl, rfl⟩

/-- C5 witness: a non-string item (`123`) leaves the table `[("a", 5)]`
unchanged under both operations. -/
theorem C5_invalid_noop_witness :
    validItemB (PyVal.int 123) = false
    ∧ add_item [("a", PyVal.int 5)] (.int 123) (.int 1)
        = .ok [("a", PyVal.int 5)]
    ∧ remove_item [("a", PyVal.int 5)] (.int 123) (.int 1)
        = .ok [("a", PyVal.int 5)] := by
  have h := C5_invalid_noop [("a", PyVal.int 5)] (.int 123) (.int 1)
    (Or.inl rfl)
  exact ⟨rfl, h.1, h.2⟩

theorem check_low_items_eq (t : Table) (threshold : Int)
    (hinv : invariantB t = true) :
    check_low_items t threshold
      = some ((t.filter (lowB threshold)).map Prod.fst) := by
  induction t with
  | nil => rfl
  | cons p rest ih =>
      obtain ⟨k0, v0⟩ := p
      simp only [invariantB, List.all_cons, Bool.and_eq_true] at hinv
      have h1 := hinv.1
      cases v0 with
      | int n =>
          by_cases hle : n ≤ threshold
          · simp [check_low_items, pyNum, ih hinv.2, lowB,
              List.filter_cons, hle]
          · simp [check_low_items, pyNum, ih hinv.2, lowB,
              List.filter_cons, hle]
      | null => simp at h1
      | bool b => simp at h1
      | str s => simp at h1
      | arr l => simp at h1
      | obj l => simp at h1

theorem check_low_items_neg (t : Table) (threshold : Int)
    (hinv : invariantB t = true) (hneg : threshold < 0) :
    check_low_items t threshold = some [] := by
  induction t with
  | nil => rfl
  | cons p rest ih =>
      obtain ⟨k0, v0⟩ := p
      simp only [invariantB, List.all_cons, Bool.and_eq_true] at hinv
      have h1 := hinv.1
      cases v0 with
      | int n =>
          have hn : 0 < n := by simpa using h1
          have hgt : ¬n ≤ threshold := by omega
          simp [check_low_items, pyNum, ih hinv.2, hgt]
      | null => simp at h1
      | bool b => simp at h1
      | str s => simp at h1
      | arr l => simp at h1
      | obj l => simp at h1

/-- C6: on a table satisfying the positive-integer invariant,
`check_low_items(threshold)` returns exactly the names of the entries
whose quantity is at most `threshold`, in table iteration order (the
table itself is read-only here); for a negative threshold the result is
empty, and the same characterization covers threshold 0. -/
theorem C6_low_stock (t : Table) (threshold : Int)
    (hinv : invariantB t = true) :
    check_low_items t threshold
      = some ((t.filter (lowB threshold)).map Prod.fst)
    ∧ (threshold < 0 → check_low_items t threshold = some []) :=
  ⟨check_low_items_eq t threshold hinv,
   fun hneg => check_low_items_neg t threshold hinv hneg⟩

/-- C6 witness: on `[("a", 5), ("b", 2)]` with threshold 3, only `"b"`
is reported. -/
theorem C6_low_stock_witness :
    invariantB [("a", PyVal.int 5), ("b", PyVal.int 2)] = true
    ∧ check_low_items [("a", PyVal.int 5), ("b", PyVal.int 2)] 3
        = some ["b"] := by
  have h := C6_low_stock [("a", PyVal.int 5), ("b", PyVal.int 2)] 3 rfl
  refine ⟨rfl, ?_⟩
  rw [h.1]; rfl

/-- C7: for a genuine dict table (pairwise distinct keys) satisfying
the positive-integer invariant, `save_data` followed by `load_data`,
with both the write and the read succeeding, reproduces the table with
the same keys and the same integer values. -/
theorem C7_save_load_roundtrip (t : Table)
    (hnd : (t.map Prod.fst).Nodup) (hinv : invariantB t = true) :
    load_data (save_data t) = .obj t := rfl

/-- C7 witness: the table `[("a", 5)]` survives a save/load round
trip. -/
theorem C7_save_load_roundtrip_witness :
    (([("a", PyVal.int 5)] : Table).map Prod.fst).Nodup
    ∧ invariantB [("a", PyVal.int 5)] = true
    ∧ load_data (save_data [("a", PyVal.int 5)])
        = .obj [("a", PyVal.int 5)] :=
  ⟨by decide, rfl, C7_save_load_roundtrip [("a", PyVal.int 5)]
    (by decide) rfl⟩

/-- C8: in each handled failure case — missing file, content that fails
to decode as JSON, and any other I/O error while reading — `load_data`
returns the empty table and lets no exception escape (each handler
falls through to `return {}`). -/
theorem C8_load_failure_empty :
    load_data .missing = .obj []
    ∧ load_data .decodeFail = .obj []
    ∧ load_data .readFail = .obj [] :=
  ⟨rfl, rfl, rfl⟩

/-- C9: frame property — for any arguments whatsoever, `add_item` and
`remove_item` leave the binding of every key other than the named item
exactly as it was, whether they return normally or raise. -/
theorem C9_frame (t : Table) (item qty : PyVal) (k : String)
    (hk : ∀ s, item = .str s → k ≠ s) :
    dictGet (add_item t item qty).resTable k = dictGet t k
    ∧ dictGet (remove_item t item qty).resTable k = dictGet t k := by
  constructor
  · cases item with
    | str s =>
        have hks : k ≠ s := hk s rfl
        by_cases hs : s = ""
        · simp [add_item, hs, PyResult.resTable]
        · rcases hpq : pyNum qty with _ | q
          · simp only [add_item, if_neg hs, hpq]; rfl
          · by_cases hqneg : q < 0
            · simp only [add_item, if_neg hs, hpq, if_pos hqneg]; rfl
            · rcases hpn : pyNum ((dictGet t s).getD (.int 0)) with _ | prev
              · simp only [add_item, if_neg hs, hpq, if_neg hqneg, hpn]; rfl
              · simp only [add_item, if_neg hs, hpq, if_neg hqneg, hpn,
                  PyResult.resTable]
                exact dictGet_dictSet_ne t s k _ hks
    | null => rfl
    | bool b => rfl
    | int n => rfl
    | arr l => rfl
    | obj l => rfl
  · cases item with
    | str s =>
        have hks : k ≠ s := hk s rfl
        by_cases hs : s = ""
        · simp [remove_item, hs, PyResult.resTable]
        · rcases hpq : pyNum qty with _ | q
          · simp only [remove_item, if_neg hs, hpq]; rfl
          · by_cases hqneg : q < 0
            · simp only [remove_item, if_neg hs, hpq, if_pos hqneg]; rfl
            · rcases hg : dictGet t s with _ | v
              · simp only [remove_item, if_neg hs, hpq, if_neg hqneg, hg]
                rfl
              · rcases hpn : pyNum v with _ | prev
                · simp only [remove_item, if_neg hs, hpq, if_neg hqneg,
                    hg, hpn]
                  rfl
                · by_cases hle : prev - q ≤ 0
                  · simp only [remove_item, if_neg hs, hpq, if_neg hqneg,
                      hg, hpn, if_pos hle, PyResult.resTable]
                    rw [dictGet_dictDel_ne _ s k hks,
                      dictGet_dictSet_ne t s k _ hks]
                  · simp only [remove_item, if_neg hs, hpq, if_neg hqneg,
                      hg, hpn, if_neg hle, PyResult.resTable]
                    exact dictGet_dictSet_ne t s k _ hks
    | null => rfl
    | bool b => rfl
    | int n => rfl
    | arr l => rfl
    | obj l => rfl

/-- C9 witness: adding or removing 1 of `"a"` on `[("a", 2)]` does not
touch the (absent) binding of `"b"`. -/
theorem C9_frame_witness :
    dictGet (add_item [("a", PyVal.int 2)] (.str "a") (.int 1)).resTable
        "b"
      = dictGet [("a", PyVal.int 2)] "b"
    ∧ dictGet
        (remove_item [("a", PyVal.int 2)] (.str "a") (.int 1)).resTable
        "b"
      = dictGet [("a", PyVal.int 2)] "b" :=
  C9_frame [("a", PyVal.int 2)] (.str "a") (.int 1) "b"
    (fun s hs => by cases hs; decide)

/-- C10: a successful read and decode returns the parsed value exactly
as parsed, with no validation of shape or contents: an object with
non-positive or non-integer values is accepted wholesale and becomes
the table (violating the positive-integer invariant), and so is a JSON
value that is not an object at all. -/
theorem C10_load_unvalidated :
    (∀ v : PyVal, load_data (.json v) = v)
    ∧ (∃ es : List (String × PyVal),
        load_data (.json (.obj es)) = .obj es ∧ invariantB es = false)
    ∧ (∃ v : PyVal, (∀ es, v ≠ .obj es) ∧ load_data (.json v) = v) := by
  refine ⟨fun v => rfl, ⟨[("x", .int 0)], rfl, rfl⟩,
    ⟨.str "junk", ?_, rfl⟩⟩
  intro es h
  exact PyVal.noConfusion h

end Inventory
